import Mathlib

set_option maxRecDepth 8000

/-!
Verification development for the blockchain-defi-analytics repository.

The JavaScript source is embedded shallowly: JavaScript strings become `String`,
JavaScript `Map`/object dictionaries become association lists with
replace-or-append update semantics, `ethers.BigNumber` arithmetic becomes `Nat`
arithmetic with truncating division, and JavaScript numbers in the pure
formula code become exact rationals (`ℚ`).  The `ethers` library primitives the
source calls (`keccak256`, `defaultAbiCoder.encode`, `getCreate2Address`,
EIP-55 checksumming, `formatUnits`) are implemented bit-exactly below so the
embedded `computePoolAddress` and `calculatePrice` are executable end to end.
-/

/-! ### JavaScript string primitives (ASCII range, as used by the source) -/

def jsToLowerChar (c : Char) : Char :=
  if 'A' ≤ c ∧ c ≤ 'Z' then Char.ofNat (c.toNat + 32) else c

def jsToUpperChar (c : Char) : Char :=
  if 'a' ≤ c ∧ c ≤ 'z' then Char.ofNat (c.toNat - 32) else c

/-- `String.prototype.toLowerCase` restricted to ASCII. -/
def jsToLower (s : String) : String := String.mk (s.data.map jsToLowerChar)

/-- `String.prototype.toUpperCase` restricted to ASCII. -/
def jsToUpper (s : String) : String := String.mk (s.data.map jsToUpperChar)

/-- Value of a lowercase hexadecimal digit (non-digits give 0). -/
def hexVal (c : Char) : Nat :=
  if '0' ≤ c ∧ c ≤ '9' then c.toNat - 48
  else if 'a' ≤ c ∧ c ≤ 'f' then c.toNat - 87
  else 0

/-- Numeric value of a `0x…` hex string.  `ethers` parses hex strings
case-insensitively, so the string is lowercased before reading digits. -/
def parseHexNat (s : String) : Nat :=
  ((jsToLower s).data.drop 2).foldl (fun acc c => acc * 16 + hexVal c) 0

/-- Byte list of a `0x…` hex string (case-insensitive). -/
def hexToBytes (s : String) : List Nat :=
  let cs := (jsToLower s).data.drop 2
  (List.range (cs.length / 2)).map fun i =>
    hexVal (cs.getD (2 * i) '0') * 16 + hexVal (cs.getD (2 * i + 1) '0')

/-- Big-endian byte encoding of `val` in `len` bytes. -/
def natToBytesBE (len val : Nat) : List Nat :=
  (List.range len).map fun i => val / 256 ^ (len - 1 - i) % 256

/-! ### Keccak-256 (the `ethers.utils.keccak256` primitive)

State: 25 lanes of 64 bits, lane `(x, y)` at index `x + 5*y`. -/

def rol64 (x n : Nat) : Nat := ((x <<< n) ||| (x >>> (64 - n))) % 2 ^ 64

def keccakLfsrStep (r : Nat) : Nat := ((r <<< 1) ^^^ ((r >>> 7) * 0x71)) % 256

/-- State of the degree-8 LFSR generating the `rc` bit sequence. -/
def keccakLfsrState : Nat → Nat
  | 0 => 1
  | t + 1 => keccakLfsrStep (keccakLfsrState t)

/-- Round constant of round `ir`: bit `2^j - 1` is `rc(j + 7*ir)`. -/
def keccakRC (ir : Nat) : Nat :=
  (List.range 7).foldl (fun acc j => acc + keccakLfsrState (j + 7 * ir) % 2 * 2 ^ (2 ^ j - 1)) 0

def keccakRoundConstants : List Nat := (List.range 24).map keccakRC

/-- Rotation offsets, indexed by `x + 5*y`: offset `(t+1)(t+2)/2 mod 64` along
the lane walk `(x, y) := (y, (2x + 3y) mod 5)` starting from `(1, 0)`. -/
def rhoOffsets : List Nat :=
  ((List.range 24).foldl (fun acc t =>
    ((acc.1.set (acc.2.1 + 5 * acc.2.2) ((t + 1) * (t + 2) / 2 % 64)),
      acc.2.2, (2 * acc.2.1 + 3 * acc.2.2) % 5))
    (List.replicate 25 0, 1, 0)).1

def laneIdx (x y : Nat) : Nat := x % 5 + 5 * (y % 5)

def getLane (A : List Nat) (x y : Nat) : Nat := A.getD (laneIdx x y) 0

def keccakTheta (A : List Nat) : List Nat :=
  let C := fun x =>
    getLane A x 0 ^^^ getLane A x 1 ^^^ getLane A x 2 ^^^ getLane A x 3 ^^^ getLane A x 4
  let D := fun x => C ((x + 4) % 5) ^^^ rol64 (C ((x + 1) % 5)) 1
  (List.range 25).map fun i => A.getD i 0 ^^^ D (i % 5)

def keccakRhoPi (A : List Nat) : List Nat :=
  (List.range 25).map fun i =>
    let x := i % 5
    let y := i / 5
    let xs := (x + 3 * y) % 5
    rol64 (getLane A xs x) (rhoOffsets.getD (laneIdx xs x) 0)

def keccakChi (A : List Nat) : List Nat :=
  (List.range 25).map fun i =>
    let x := i % 5
    let y := i / 5
    getLane A x y ^^^ ((getLane A (x + 1) y ^^^ (2 ^ 64 - 1)) &&& getLane A (x + 2) y)

def keccakRound (A : List Nat) (rc : Nat) : List Nat :=
  let B := keccakChi (keccakRhoPi (keccakTheta A))
  B.set 0 (B.getD 0 0 ^^^ rc)

def keccakF (A : List Nat) : List Nat := keccakRoundConstants.foldl keccakRound A

/-- Multi-rate padding with the original-Keccak domain byte `0x01`, rate 136. -/
def keccakPad (msg : List Nat) : List Nat :=
  let q := 136 - msg.length % 136
  if q = 1 then msg ++ [0x81]
  else msg ++ 0x01 :: (List.replicate (q - 2) 0 ++ [0x80])

def bytesToLane (bs : List Nat) : Nat := bs.foldr (fun b acc => acc * 256 + b) 0

def absorbBlock (st block : List Nat) : List Nat :=
  let lanes := (List.range 17).map fun i => bytesToLane ((block.drop (8 * i)).take 8)
  keccakF ((List.range 25).map fun i => st.getD i 0 ^^^ lanes.getD i 0)

def absorbBlocks (st msg : List Nat) : Nat → List Nat
  | 0 => st
  | n + 1 => absorbBlocks (absorbBlock st (msg.take 136)) (msg.drop 136) n

def keccak256 (msg : List Nat) : List Nat :=
  let padded := keccakPad msg
  let st := absorbBlocks (List.replicate 25 0) padded (padded.length / 136)
  (List.range 32).map fun i => st.getD (i / 8) 0 / 256 ^ (i % 8) % 256

/-! ### Address rendering (EIP-55 checksum, as `ethers` returns addresses) -/

def hexDigitChar (n : Nat) : Char :=
  if n < 10 then Char.ofNat (48 + n) else Char.ofNat (87 + n)

def byteToHexChars (b : Nat) : List Char := [hexDigitChar (b / 16), hexDigitChar (b % 16)]

def toChecksumAddress (addr : List Nat) : String :=
  let hexChars := addr.foldr (fun b acc => byteToHexChars b ++ acc) []
  let hashBytes := keccak256 (hexChars.map Char.toNat)
  let nibble := fun i => hashBytes.getD (i / 2) 0 / (if i % 2 = 0 then 16 else 1) % 16
  String.mk ('0' :: 'x' :: (List.range 40).map fun i =>
    let c := hexChars.getD i '0'
    if 8 ≤ nibble i ∧ 'a' ≤ c ∧ c ≤ 'f' then Char.ofNat (c.toNat - 32) else c)

/-- `ethers.utils.getCreate2Address`: keccak of `0xff ++ deployer ++ salt ++ initCodeHash`,
last 20 bytes, checksummed. -/
def getCreate2Address (fromAddr : String) (salt initCodeHash : List Nat) : String :=
  toChecksumAddress
    ((keccak256 (0xff :: (natToBytesBE 20 (parseHexNat fromAddr) ++ salt ++ initCodeHash))).drop 12)

/-! ### UniswapAnalytics (src/README.md inlined protocol file) -/

/-- `this.factoryAddress` from the `UniswapAnalytics` constructor. -/
def factoryAddress : String := "0x1F98431c8aD98523631AE4a59f267346ea31F984"

def POOL_INIT_CODE_HASH : String :=
  "0xe34f199b19b2b4f47f68442619d555527d244f78a3297ea89325f843f87b8b54"

/-- `ethers.utils.defaultAbiCoder.encode(['address','address','uint24'], …)`:
each value left-padded to a 32-byte word. -/
def abiEncodeTokensFee (a b fee : Nat) : List Nat :=
  natToBytesBE 32 a ++ natToBytesBE 32 b ++ natToBytesBE 32 fee

/-- `UniswapAnalytics.computePoolAddress`: canonicalize the token order by
lowercase string comparison, hash the ABI encoding as the CREATE2 salt, derive
the counterfactual address. -/
def computePoolAddress (token0 token1 : String) (fee : Nat) : String :=
  let pair := if jsToLower token0 < jsToLower token1 then (token0, token1) else (token1, token0)
  let salt := keccak256 (abiEncodeTokensFee (parseHexNat pair.1) (parseHexNat pair.2) fee)
  getCreate2Address factoryAddress salt (hexToBytes POOL_INIT_CODE_HASH)

/-- `UniswapAnalytics.calculatePrice`: `ethers.BigNumber` arithmetic (truncating
integer division), then `ethers.utils.formatUnits(adjustedPrice, token1Decimals)`,
which renders the exact decimal `adjustedPrice / 10^token1Decimals`.  The result
is that exact decimal value. -/
def calculatePrice (sqrtPriceX96 token0Decimals token1Decimals : ℕ) : ℚ :=
  let Q96 : ℕ := 2 ^ 96
  let price : ℕ := sqrtPriceX96 * sqrtPriceX96 / Q96
  let adjustedPrice : ℕ := price * 10 ^ token0Decimals / 10 ^ token1Decimals
  (adjustedPrice : ℚ) / 10 ^ token1Decimals

/-- Result shape of `calculateLiquidityAPY`; the out-of-range branch returns an
object without the `volume24h`/`fees24h` fields, modelled by `none`. -/
structure ApyResult where
  apy : ℚ
  inRange : Bool
  volume24h : Option ℚ
  fees24h : Option ℚ
deriving DecidableEq

/-- `UniswapAnalytics.calculateLiquidityAPY`, with its I/O collaborators made
explicit: `currentTick` is `poolInfo.tick`, `fee` is `poolInfo.fee`,
`liquidity` is `poolInfo.liquidity`, `volume24h` is the `get24hVolume` result. -/
def calculateLiquidityAPY (currentTick positionTickLower positionTickUpper : ℤ)
    (volume24h fee liquidity : ℚ) : ApyResult :=
  if positionTickLower ≤ currentTick ∧ currentTick ≤ positionTickUpper then
    let feeRate := fee / 1000000
    let fees24h := volume24h * feeRate
    let apy := fees24h * 365 / liquidity * 100
    ⟨apy, true, some volume24h, some fees24h⟩
  else
    ⟨0, false, none, none⟩

/-! ### PriceOracle (src/src/utils/priceOracle.js)

JavaScript `Map`/object dictionaries are association lists with the `Map.set`
semantics: replace in place when the key exists, append otherwise. -/

def objGet {β : Type} (m : List (String × β)) (k : String) : Option β :=
  match m with
  | [] => none
  | (k', v') :: rest => if k' = k then some v' else objGet rest k

def objSet {β : Type} (m : List (String × β)) (k : String) (v : β) : List (String × β) :=
  match m with
  | [] => [(k, v)]
  | (k', v') :: rest => if k' = k then (k, v) :: rest else (k', v') :: objSet rest k v

/-- One entry of the upstream CoinGecko `/simple/price` response object. -/
structure RawPriceEntry where
  usd : ℚ
  usd_24h_change : ℚ
  usd_market_cap : ℚ
  usd_24h_vol : ℚ
deriving DecidableEq

/-- Price record as `fetchPriceFromCoinGecko` returns it. -/
structure PriceData where
  usd : ℚ
  change24h : ℚ
  marketCap : ℚ
  volume24h : ℚ
deriving DecidableEq

structure CacheEntry where
  price : PriceData
  timestamp : ℤ
deriving DecidableEq

abbrev Cache := List (String × CacheEntry)

/-- `this.cacheTTL` from the `PriceOracle` constructor (milliseconds). -/
def cacheTTL : ℤ := 60000

/-- The fixed symbol → CoinGecko-id object literal in `getCoinGeckoId`. -/
def coinGeckoTable (k : String) : Option String :=
  if k = "ETH" then some "ethereum"
  else if k = "BTC" then some "bitcoin"
  else if k = "USDC" then some "usd-coin"
  else if k = "USDT" then some "tether"
  else if k = "DAI" then some "dai"
  else if k = "WETH" then some "weth"
  else if k = "WBTC" then some "wrapped-bitcoin"
  else if k = "UNI" then some "uniswap"
  else if k = "AAVE" then some "aave"
  else if k = "LINK" then some "chainlink"
  else if k = "MATIC" then some "matic-network"
  else if k = "ARB" then some "arbitrum"
  else none

/-- `PriceOracle.getCoinGeckoId`: `mapping[symbol.toUpperCase()] || symbol.toLowerCase()`. -/
def getCoinGeckoId (symbol : String) : String :=
  (coinGeckoTable (jsToUpper symbol)).getD (jsToLower symbol)

/-- `PriceOracle.fetchPriceFromCoinGecko`.  The upstream collaborator is the
HTTP response data object, keyed by CoinGecko id; `none` models a failed
request or a response carrying no data for the id (in which case the source
throws while reading `data.usd`). -/
def fetchPriceFromCoinGecko (upstream : String → Option RawPriceEntry)
    (tokenSymbol : String) : Option PriceData :=
  (upstream (getCoinGeckoId tokenSymbol)).map fun d =>
    ⟨d.usd, d.usd_24h_change, d.usd_market_cap, d.usd_24h_vol⟩

structure GetPriceResult where
  result : Except Unit PriceData
  cache : Cache
  upstreamCalled : Bool

/-- The `try` block of `getPrice`: fetch, cache the result keyed by
`cacheKey`, return it; on failure propagate the error and leave the cache. -/
def getPriceFetch (cache : Cache) (now : ℤ) (upstream : String → Option RawPriceEntry)
    (tokenSymbol cacheKey : String) : GetPriceResult :=
  match fetchPriceFromCoinGecko upstream tokenSymbol with
  | some price => ⟨Except.ok price, objSet cache cacheKey ⟨price, now⟩, true⟩
  | none => ⟨Except.error (), cache, true⟩

/-- `PriceOracle.getPrice`, with the clock (`Date.now()`) and the upstream
response passed explicitly. -/
def getPrice (cache : Cache) (now : ℤ) (upstream : String → Option RawPriceEntry)
    (tokenSymbol : String) : GetPriceResult :=
  let cacheKey := "price_" ++ jsToLower tokenSymbol
  match objGet cache cacheKey with
  | some cached =>
    if now - cached.timestamp < cacheTTL then ⟨Except.ok cached.price, cache, false⟩
    else getPriceFetch cache now upstream tokenSymbol cacheKey
  | none => getPriceFetch cache now upstream tokenSymbol cacheKey

/-- `PriceOracle.clearCache`. -/
def clearCache (_cache : Cache) : Cache := []

/-- The `ids` sent in the single batch request of `getBatchPrices`
(`tokenSymbols.map(symbol => this.getCoinGeckoId(symbol))`, joined by commas). -/
def batchRequestIds (tokenSymbols : List String) : List String :=
  tokenSymbols.map getCoinGeckoId

/-- `PriceOracle.getBatchPrices`: one upstream request for all resolved ids,
then `prices[symbol] = response.data[coinId]` for each requested symbol.
`responseData` is the single response's data object; the value type is
abstract because the source copies entries verbatim. -/
def getBatchPrices {β : Type} (tokenSymbols : List String)
    (responseData : String → Option β) : List (String × Option β) :=
  let coinIds := batchRequestIds tokenSymbols
  (tokenSymbols.zip coinIds).foldl (fun m sc => objSet m sc.1 (responseData sc.2)) []

/-- `getBatchPrices` as a method of the stateful `PriceOracle` class: the method
body never reads or writes `this.cache`, so the cache passes through unchanged. -/
def getBatchPricesS {β : Type} (cache : Cache) (tokenSymbols : List String)
    (responseData : String → Option β) : List (String × Option β) × Cache :=
  (getBatchPrices tokenSymbols responseData, cache)

/-! ### PortfolioAnalytics (src/unnamed/part_000) -/

/-- JavaScript number results including the IEEE special values produced by
division; the finite case is exact. -/
inductive JsNumber where
  | num (q : ℚ)
  | posInf
  | negInf
  | nan
deriving DecidableEq

/-- JavaScript `/` on finite operands. -/
def jsDiv (a b : ℚ) : JsNumber :=
  if b = 0 then (if 0 < a then .posInf else if a < 0 then .negInf else .nan)
  else .num (a / b)

/-- JavaScript `<` against a finite right operand. -/
def jsLt (x : JsNumber) (q : ℚ) : Bool :=
  match x with
  | .num a => decide (a < q)
  | .posInf => false
  | .negInf => true
  | .nan => false

structure LendingPosition where
  type : String
  value : ℚ
  liquidationThreshold : ℚ
deriving DecidableEq

structure RiskMetrics where
  healthFactor : JsNumber
  collateralizationRatio : JsNumber
  liquidationRisk : String
  totalCollateral : ℚ
  totalDebt : ℚ
deriving DecidableEq

/-- The accumulation loop of `calculateRiskMetrics`:
`(totalCollateral, totalDebt, liquidationThreshold)`. -/
def riskTotals (positions : List LendingPosition) : ℚ × ℚ × ℚ :=
  positions.foldl (fun acc p =>
    if p.type = "collateral" then
      (acc.1 + p.value, acc.2.1, acc.2.2 + p.value * p.liquidationThreshold)
    else if p.type = "debt" then (acc.1, acc.2.1 + p.value, acc.2.2)
    else acc) (0, 0, 0)

/-- `PortfolioAnalytics.calculateRiskMetrics`, with the fetched lending
positions passed explicitly. -/
def calculateRiskMetrics (positions : List LendingPosition) : RiskMetrics :=
  let totals := riskTotals positions
  let totalCollateral := totals.1
  let totalDebt := totals.2.1
  let liquidationThreshold := totals.2.2
  let healthFactor : JsNumber :=
    if 0 < totalCollateral then
      jsDiv (liquidationThreshold / totalCollateral) (totalDebt / totalCollateral)
    else .posInf
  { healthFactor := healthFactor
    collateralizationRatio :=
      if 0 < totalDebt then .num (totalCollateral / totalDebt) else .posInf
    liquidationRisk :=
      if jsLt healthFactor (3 / 2) then "High"
      else if jsLt healthFactor 2 then "Medium" else "Low"
    totalCollateral := totalCollateral
    totalDebt := totalDebt }

/-! ### Helper lemmas -/

/-- Well-formed 20-byte hex address: `0x` followed by 40 hex digits. -/
def isHexAddress (s : String) : Bool :=
  s.data.length = 42 && s.data.take 2 = ['0', 'x'] && (s.data.drop 2).all fun c =>
    decide (('0' ≤ c ∧ c ≤ '9') ∨ ('a' ≤ c ∧ c ≤ 'f') ∨ ('A' ≤ c ∧ c ≤ 'F'))

theorem parseHexNat_eq_of_lower_eq (x y : String) (h : jsToLower x = jsToLower y) :
    parseHexNat x = parseHexNat y := by
  unfold parseHexNat
  rw [h]

theorem objGet_objSet_self {β : Type} (m : List (String × β)) (k : String) (v : β) :
    objGet (objSet m k v) k = some v := by
  induction m with
  | nil => simp [objSet, objGet]
  | cons p rest ih =>
    obtain ⟨k', v'⟩ := p
    by_cases h : k' = k
    · simp [objSet, objGet, h]
    · simp [objSet, objGet, h, ih]

theorem objGet_objSet_ne {β : Type} (m : List (String × β)) (k k' : String) (v : β)
    (h : k' ≠ k) : objGet (objSet m k' v) k = objGet m k := by
  induction m with
  | nil => simp [objSet, objGet, h]
  | cons p rest ih =>
    obtain ⟨ka, va⟩ := p
    by_cases hk : ka = k'
    · subst hk
      simp [objSet, objGet, h]
    · simp only [objSet, if_neg hk]
      by_cases hk2 : ka = k
      · simp [objGet, hk2]
      · simp [objGet, hk2, ih]

theorem objGet_foldl_objSet_not_mem {β : Type} (pairs : List (String × β))
    (init : List (String × β)) (k : String) (h : k ∉ pairs.map Prod.fst) :
    objGet (pairs.foldl (fun m p => objSet m p.1 p.2) init) k = objGet init k := by
  induction pairs generalizing init with
  | nil => rfl
  | cons p rest ih =>
    simp only [List.map_cons, List.mem_cons, not_or] at h
    simp only [List.foldl_cons]
    rw [ih _ h.2, objGet_objSet_ne _ _ _ _ (Ne.symm h.1)]

theorem objGet_foldl_objSet_fn {β : Type} (F : String → β) (pairs : List (String × β))
    (init : List (String × β)) (k : String) (hF : ∀ p ∈ pairs, p.2 = F p.1)
    (hk : k ∈ pairs.map Prod.fst) :
    objGet (pairs.foldl (fun m p => objSet m p.1 p.2) init) k = some (F k) := by
  induction pairs generalizing init with
  | nil => simp at hk
  | cons p rest ih =>
    simp only [List.foldl_cons]
    by_cases hmem : k ∈ rest.map Prod.fst
    · exact ih _ (fun q hq => hF q (List.mem_cons_of_mem _ hq)) hmem
    · have hk1 : k = p.1 := by
        rcases List.mem_cons.mp hk with h | h
        · simpa using h
        · exact absurd h hmem
      rw [objGet_foldl_objSet_not_mem _ _ _ hmem, hk1, objGet_objSet_self,
        hF p (List.mem_cons_self _ _)]

theorem zip_self_map {α β' : Type} (l : List α) (f : α → β') :
    l.zip (l.map f) = l.map fun a => (a, f a) := by
  induction l with
  | nil => rfl
  | cons a rest ih => simp [ih]

theorem getBatchPrices_eq_foldl {β : Type} (tokenSymbols : List String)
    (responseData : String → Option β) :
    getBatchPrices tokenSymbols responseData
      = (tokenSymbols.map fun s => (s, responseData (getCoinGeckoId s))).foldl
          (fun m p => objSet m p.1 p.2) [] := by
  simp only [getBatchPrices, batchRequestIds]
  rw [zip_self_map]
  simp only [List.foldl_map]

theorem getPriceFetch_upstreamCalled (cache : Cache) (now : ℤ)
    (upstream : String → Option RawPriceEntry) (tokenSymbol cacheKey : String) :
    (getPriceFetch cache now upstream tokenSymbol cacheKey).upstreamCalled = true := by
  unfold getPriceFetch
  cases fetchPriceFromCoinGecko upstream tokenSymbol <;> rfl

theorem getPrice_eq_of_hit (cache : Cache) (now : ℤ)
    (upstream : String → Option RawPriceEntry) (tokenSymbol : String) (cached : CacheEntry)
    (hg : objGet cache ("price_" ++ jsToLower tokenSymbol) = some cached)
    (ht : now - cached.timestamp < cacheTTL) :
    getPrice cache now upstream tokenSymbol = ⟨Except.ok cached.price, cache, false⟩ := by
  simp only [getPrice]
  rw [hg]
  simp [ht]

theorem getPrice_eq_of_expired (cache : Cache) (now : ℤ)
    (upstream : String → Option RawPriceEntry) (tokenSymbol : String) (cached : CacheEntry)
    (hg : objGet cache ("price_" ++ jsToLower tokenSymbol) = some cached)
    (ht : ¬ now - cached.timestamp < cacheTTL) :
    getPrice cache now upstream tokenSymbol
      = getPriceFetch cache now upstream tokenSymbol ("price_" ++ jsToLower tokenSymbol) := by
  simp only [getPrice]
  rw [hg]
  simp [ht]

theorem getPrice_eq_of_none (cache : Cache) (now : ℤ)
    (upstream : String → Option RawPriceEntry) (tokenSymbol : String)
    (hg : objGet cache ("price_" ++ jsToLower tokenSymbol) = none) :
    getPrice cache now upstream tokenSymbol
      = getPriceFetch cache now upstream tokenSymbol ("price_" ++ jsToLower tokenSymbol) := by
  simp only [getPrice]
  rw [hg]

theorem getPriceFetch_of_ok (cache : Cache) (now : ℤ)
    (upstream : String → Option RawPriceEntry) (tokenSymbol cacheKey : String) (p : PriceData)
    (hok : (getPriceFetch cache now upstream tokenSymbol cacheKey).result = Except.ok p) :
    getPriceFetch cache now upstream tokenSymbol cacheKey
      = ⟨Except.ok p, objSet cache cacheKey ⟨p, now⟩, true⟩ := by
  unfold getPriceFetch at hok ⊢
  cases hf : fetchPriceFromCoinGecko upstream tokenSymbol with
  | none => rw [hf] at hok; simp at hok
  | some price =>
    rw [hf] at hok
    simp only [Except.ok.injEq] at hok
    subst hok
    rfl

/-! ### Claim theorems -/

/-- C1: the claim states `calculatePrice` returns `(sqrtPriceX96^2 / 2^192) *
10^(token0Decimals - token1Decimals)` and in particular `1.0` at
`sqrtPriceX96 = 2^96` with 18/18 decimals.  Evaluating the embedded source at
that input: the code divides the squared price by `2^96` only once and
`formatUnits` divides by a further `10^18`, so it returns `2^96 / 10^18`
(about `7.92e10`), not `1`. -/
theorem calculatePrice_unit_input :
    calculatePrice (2 ^ 96) 18 18 = (2 ^ 96 : ℚ) / 10 ^ 18
    ∧ calculatePrice (2 ^ 96) 18 18 ≠ 1 := by
  constructor
  · norm_num [calculatePrice]
  · norm_num [calculatePrice]

/-- C2: `computePoolAddress` is independent of the order of the two token
addresses: for well-formed 20-byte hex addresses denoting distinct tokens and
any fee tier, both argument orders derive the same pool address byte for
byte. -/
theorem computePoolAddress_order_independent (tokenA tokenB : String) (fee : ℕ)
    (_hA : isHexAddress tokenA = true) (_hB : isHexAddress tokenB = true)
    (hne : parseHexNat tokenA ≠ parseHexNat tokenB) :
    computePoolAddress tokenA tokenB fee = computePoolAddress tokenB tokenA fee := by
  have hlow : jsToLower tokenA ≠ jsToLower tokenB :=
    fun h => hne (parseHexNat_eq_of_lower_eq _ _ h)
  rcases lt_or_gt_of_ne hlow with h | h
  · unfold computePoolAddress
    rw [if_pos h, if_neg (lt_asymm h)]
  · unfold computePoolAddress
    rw [if_neg (lt_asymm h), if_pos h]

theorem computePoolAddress_order_independent_witness :
    computePoolAddress "0xA0b86991c6218b36c1d19D4a2e9Eb0cE3606eB48"
        "0xC02aaA39b223FE8D0A0e5C4F27eAD9083C756Cc2" 3000
      = computePoolAddress "0xC02aaA39b223FE8D0A0e5C4F27eAD9083C756Cc2"
        "0xA0b86991c6218b36c1d19D4a2e9Eb0cE3606eB48" 3000 :=
  computePoolAddress_order_independent _ _ 3000 (by decide) (by decide) (by decide)

/-- Upstream response used to exercise the cache claims: the CoinGecko data
object carrying an entry for `ethereum` only. -/
def exampleUpstream : String → Option RawPriceEntry :=
  fun id => if id = "ethereum" then some ⟨2000, 1, 2, 3⟩ else none

/-- C3: after a successful upstream fetch at time `t`, a second `getPrice` for
a symbol with the same lowercasing within `cacheTTL` performs no upstream call
and returns the cached record with the cache unchanged; at or after the TTL
the entry is treated as absent and the upstream is called again; and after
`clearCache` the next `getPrice` always calls the upstream. -/
theorem getPrice_cache_spec (cache : Cache) (t t' : ℤ)
    (up up' : String → Option RawPriceEntry) (s s' : String) (p : PriceData)
    (hlow : jsToLower s' = jsToLower s)
    (hok : (getPrice cache t up s).result = Except.ok p)
    (hcall : (getPrice cache t up s).upstreamCalled = true) :
    (t' - t < cacheTTL →
      getPrice (getPrice cache t up s).cache t' up' s'
        = ⟨Except.ok p, (getPrice cache t up s).cache, false⟩)
    ∧ (cacheTTL ≤ t' - t →
      (getPrice (getPrice cache t up s).cache t' up' s').upstreamCalled = true)
    ∧ (∀ (c2 : Cache) (t2 : ℤ) (up2 : String → Option RawPriceEntry) (s2 : String),
      (getPrice (clearCache c2) t2 up2 s2).upstreamCalled = true) := by
  have hmain : getPrice cache t up s
      = ⟨Except.ok p, objSet cache ("price_" ++ jsToLower s) ⟨p, t⟩, true⟩ := by
    cases hg : objGet cache ("price_" ++ jsToLower s) with
    | none =>
      rw [getPrice_eq_of_none _ _ _ _ hg] at hok ⊢
      exact getPriceFetch_of_ok _ _ _ _ _ _ hok
    | some cached =>
      by_cases ht : t - cached.timestamp < cacheTTL
      · rw [getPrice_eq_of_hit _ _ _ _ _ hg ht] at hcall
        simp at hcall
      · rw [getPrice_eq_of_expired _ _ _ _ _ hg ht] at hok ⊢
        exact getPriceFetch_of_ok _ _ _ _ _ _ hok
  have hkey : "price_" ++ jsToLower s' = "price_" ++ jsToLower s := by rw [hlow]
  have hget : objGet (getPrice cache t up s).cache ("price_" ++ jsToLower s')
      = some ⟨p, t⟩ := by
    rw [hmain, hkey]
    exact objGet_objSet_self _ _ _
  refine ⟨fun ht => ?_, fun ht => ?_, fun c2 t2 up2 s2 => ?_⟩
  · rw [getPrice_eq_of_hit _ _ _ _ _ hget ht]
  · rw [getPrice_eq_of_expired _ _ _ _ _ hget (not_lt.mpr ht)]
    exact getPriceFetch_upstreamCalled _ _ _ _ _
  · have hnone : objGet (clearCache c2) ("price_" ++ jsToLower s2) = none := rfl
    rw [getPrice_eq_of_none _ _ _ _ hnone]
    exact getPriceFetch_upstreamCalled _ _ _ _ _

theorem getPrice_cache_spec_witness :
    getPrice (getPrice [] 0 exampleUpstream "ETH").cache 1000 exampleUpstream "eth"
      = ⟨Except.ok ⟨2000, 1, 2, 3⟩, (getPrice [] 0 exampleUpstream "ETH").cache, false⟩ :=
  (getPrice_cache_spec [] 0 1000 exampleUpstream exampleUpstream "ETH" "eth"
    ⟨2000, 1, 2, 3⟩ rfl rfl rfl).1 (by decide)

/-- C4: `calculateLiquidityAPY` returns `{apy: 0, inRange: false}` with the
volume and fee fields omitted whenever the current tick lies outside
`[tickLower, tickUpper]`, regardless of volume; when the tick is in range it
returns `inRange = true`, `fees24h = volume24h * (fee / 1e6)` and
`apy = fees24h * 365 / liquidity * 100`. -/
theorem calculateLiquidityAPY_spec (currentTick tickLower tickUpper : ℤ)
    (volume24h fee liquidity : ℚ) :
    ((currentTick < tickLower ∨ tickUpper < currentTick) →
      calculateLiquidityAPY currentTick tickLower tickUpper volume24h fee liquidity
        = ⟨0, false, none, none⟩)
    ∧ ((tickLower ≤ currentTick ∧ currentTick ≤ tickUpper) →
      calculateLiquidityAPY currentTick tickLower tickUpper volume24h fee liquidity
        = ⟨volume24h * (fee / 1000000) * 365 / liquidity * 100, true, some volume24h,
           some (volume24h * (fee / 1000000))⟩) := by
  constructor
  · intro h
    have hout : ¬ (tickLower ≤ currentTick ∧ currentTick ≤ tickUpper) := by
      intro hin
      rcases h with h | h <;> omega
    simp [calculateLiquidityAPY, hout]
  · intro h
    simp [calculateLiquidityAPY, h]

theorem calculateLiquidityAPY_spec_witness :
    calculateLiquidityAPY 20 0 10 500000 3000 1000000 = ⟨0, false, none, none⟩
    ∧ calculateLiquidityAPY 5 0 10 500000 3000 1000000
        = ⟨500000 * (3000 / 1000000) * 365 / 1000000 * 100, true, some 500000,
           some (500000 * (3000 / 1000000))⟩ :=
  ⟨(calculateLiquidityAPY_spec 20 0 10 500000 3000 1000000).1 (by decide),
   (calculateLiquidityAPY_spec 5 0 10 500000 3000 1000000).2 (by decide)⟩

/-- Entry shape of the batch example upstream: `{usd: …}`. -/
structure BatchUsdEntry where
  usd : ℚ
deriving DecidableEq

/-- The mocked batch upstream of the claim: `{ethereum: {usd: 2000}, "usd-coin": {usd: 1}}`. -/
def batchExampleUpstream : String → Option BatchUsdEntry :=
  fun id => if id = "ethereum" then some ⟨2000⟩
    else if id = "usd-coin" then some ⟨1⟩ else none

/-- C5: `getBatchPrices` resolves every requested symbol case-insensitively to
its upstream identifier, sends the single batch request whose identifier set is
exactly the set of resolved identifiers, and maps every originally requested
symbol (duplicates and case variants included) to the response entry of its
identifier; in particular `getBatchPrices ["ETH", "eth", "USDC"]` against
`{ethereum: {usd: 2000}, "usd-coin": {usd: 1}}` yields
`{ETH: {usd: 2000}, eth: {usd: 2000}, USDC: {usd: 1}}`. -/
theorem getBatchPrices_spec :
    (∀ (β : Type) (tokenSymbols : List String) (responseData : String → Option β),
      (∀ id, id ∈ batchRequestIds tokenSymbols ↔ ∃ s ∈ tokenSymbols, getCoinGeckoId s = id)
      ∧ ∀ s ∈ tokenSymbols,
          objGet (getBatchPrices tokenSymbols responseData) s
            = some (responseData (getCoinGeckoId s)))
    ∧ getBatchPrices ["ETH", "eth", "USDC"] batchExampleUpstream
        = [("ETH", some ⟨2000⟩), ("eth", some ⟨2000⟩), ("USDC", some ⟨1⟩)] := by
  constructor
  · intro β tokenSymbols responseData
    constructor
    · intro id
      simp [batchRequestIds]
    · intro s hs
      rw [getBatchPrices_eq_foldl]
      refine objGet_foldl_objSet_fn (fun k => responseData (getCoinGeckoId k)) _ _ _ ?_ ?_
      · intro p hp
        rcases List.mem_map.mp hp with ⟨a, _, rfl⟩
        rfl
      · simpa [List.map_map] using hs
  · decide

theorem getBatchPrices_spec_witness :
    objGet (getBatchPrices ["BTC"] batchExampleUpstream) "BTC"
      = some (batchExampleUpstream (getCoinGeckoId "BTC")) :=
  (getBatchPrices_spec.1 BatchUsdEntry ["BTC"] batchExampleUpstream).2 "BTC" (by simp)

/-- C6 counterexample: the claim says the symbol is trimmed before the table
lookup, so `" ETH"` would resolve to `"ethereum"`; the source never trims, and
`getCoinGeckoId " ETH"` falls through to the lowercased untrimmed symbol
`" eth"`. -/
theorem getCoinGeckoId_trim_counterexample :
    getCoinGeckoId " ETH" = " eth" ∧ getCoinGeckoId " ETH" ≠ "ethereum" := by
  constructor
  · rfl
  · decide

/-- C6 amended: `getPrice` resolves a symbol by uppercasing it (without
trimming) and mapping it through the fixed symbol table; symbols whose
uppercasing is not in the table pass through lowercased (untrimmed) as the
fallback identifier. -/
theorem getCoinGeckoId_amended (s : String) :
    (∀ id, coinGeckoTable (jsToUpper s) = some id → getCoinGeckoId s = id)
    ∧ (coinGeckoTable (jsToUpper s) = none → getCoinGeckoId s = jsToLower s) := by
  constructor
  · intro id h
    unfold getCoinGeckoId
    rw [h]
    rfl
  · intro h
    unfold getCoinGeckoId
    rw [h]
    rfl

theorem getCoinGeckoId_amended_witness :
    getCoinGeckoId "eth" = "ethereum" ∧ getCoinGeckoId "FOO" = "foo" :=
  ⟨(getCoinGeckoId_amended "eth").1 "ethereum" (by decide),
   (getCoinGeckoId_amended "FOO").2 (by decide)⟩

/-- C7: `getBatchPrices` neither reads nor writes the single-entry price
cache: as a method of the stateful oracle it leaves the cache map identical,
and its returned mapping does not depend on the cache contents. -/
theorem getBatchPrices_cache_frame :
    ∀ (β : Type) (cache cache' : Cache) (tokenSymbols : List String)
      (responseData : String → Option β),
      (getBatchPricesS cache tokenSymbols responseData).2 = cache
      ∧ (getBatchPricesS cache tokenSymbols responseData).1
          = (getBatchPricesS cache' tokenSymbols responseData).1 :=
  fun _ _ _ _ _ => ⟨rfl, rfl⟩

/-- C8 counterexample: the claim asserts strict monotonicity in
`sqrtPriceX96`; the truncating integer arithmetic maps both `0` and `1` to
price `0`, so strictness fails. -/
theorem calculatePrice_not_strictly_increasing :
    (0 : ℕ) < 1 ∧ ¬ calculatePrice 0 18 18 < calculatePrice 1 18 18 := by
  constructor
  · decide
  · norm_num [calculatePrice]

/-- C8 amended: for fixed decimals, `calculatePrice` is monotonically
non-decreasing in `sqrtPriceX96` (strictness fails on equal truncated
outputs). -/
theorem calculatePrice_monotone (token0Decimals token1Decimals s1 s2 : ℕ)
    (h : s1 ≤ s2) :
    calculatePrice s1 token0Decimals token1Decimals
      ≤ calculatePrice s2 token0Decimals token1Decimals := by
  simp only [calculatePrice]
  have h1 : s1 * s1 / 2 ^ 96 * 10 ^ token0Decimals / 10 ^ token1Decimals
      ≤ s2 * s2 / 2 ^ 96 * 10 ^ token0Decimals / 10 ^ token1Decimals :=
    Nat.div_le_div_right
      (Nat.mul_le_mul_right _ (Nat.div_le_div_right (Nat.mul_le_mul h h)))
  have hpos : (0 : ℚ) < 10 ^ token1Decimals := by positivity
  exact (div_le_div_iff_of_pos_right hpos).mpr (by exact_mod_cast h1)

theorem calculatePrice_monotone_witness :
    calculatePrice (2 ^ 96) 18 18 ≤ calculatePrice (2 ^ 97) 18 18 :=
  calculatePrice_monotone 18 18 (2 ^ 96) (2 ^ 97) (by norm_num)

/-- C9: when the accumulated total debt of the lending positions is zero,
`calculateRiskMetrics` defines the collateralization ratio as the unbounded
(infinite) value instead of failing; the embedded function is total, so no
exception is possible on the zero-debt division edge case. -/
theorem calculateRiskMetrics_zero_debt (positions : List LendingPosition)
    (h : (riskTotals positions).2.1 = 0) :
    (calculateRiskMetrics positions).collateralizationRatio = JsNumber.posInf := by
  simp only [calculateRiskMetrics]
  rw [h]
  simp

theorem calculateRiskMetrics_zero_debt_witness :
    (calculateRiskMetrics [⟨"collateral", 100, 4 / 5⟩]).collateralizationRatio
      = JsNumber.posInf :=
  calculateRiskMetrics_zero_debt [⟨"collateral", 100, 4 / 5⟩] (by decide)

/-- C10: when `getPrice` misses the cache (no entry, or an entry at least
`cacheTTL` old) and the upstream fetch fails or carries no data for the
resolved identifier, the error is propagated to the caller and the cache is
returned exactly as it was — no entry is added, removed or modified. -/
theorem getPrice_error_atomicity (cache : Cache) (t : ℤ)
    (up : String → Option RawPriceEntry) (s : String)
    (hmiss : ∀ e, objGet cache ("price_" ++ jsToLower s) = some e
      → cacheTTL ≤ t - e.timestamp)
    (hfail : up (getCoinGeckoId s) = none) :
    getPrice cache t up s = ⟨Except.error (), cache, true⟩ := by
  have hfetch : getPriceFetch cache t up s ("price_" ++ jsToLower s)
      = ⟨Except.error (), cache, true⟩ := by
    unfold getPriceFetch fetchPriceFromCoinGecko
    rw [hfail]
    rfl
  cases hg : objGet cache ("price_" ++ jsToLower s) with
  | none => rw [getPrice_eq_of_none _ _ _ _ hg, hfetch]
  | some cached =>
    rw [getPrice_eq_of_expired _ _ _ _ _ hg (not_lt.mpr (hmiss cached hg)), hfetch]

theorem getPrice_error_atomicity_witness :
    getPrice [] 5 (fun _ => none) "BTC" = ⟨Except.error (), [], true⟩ :=
  getPrice_error_atomicity [] 5 (fun _ => none) "BTC"
    (fun e he => by simp [objGet] at he) rfl
